import Mathlib

/-!
Shallow embedding of the SAPL test-scenario value-matching engine
(`ScenarioInterpreter` helper methods: `matchNode`, `matchString`,
`matchComplexString`, `matchArrayBody`, `matchObjectBody`,
`matchDefaultObject`, `matchExtendedConstraint`,
`buildSingleMatcherPredicate`, `buildCombinedMatcherPredicate`).

Modelling conventions:
- Java exceptions are modelled with `Except MatchError`: an uncaught
  `IllegalArgumentException` from the decision-matcher dispatcher is
  `.unsupportedMatcherKind`, an uncaught `NumberFormatException` from
  `Double.parseDouble` / `Integer.parseInt` is `.malformedLiteral`, and a
  `NullPointerException` from calling a method on a null `String` is
  `.nullPointer`.
- Nullable Java references are `Option`.
- Matcher-AST token texts that the code unquotes with `unquoteString`
  (an external utility) are stored already unquoted in the AST model;
  literals that the code converts with `ValueConverter.convert` are stored
  already converted.  Numeric tokens, which the code parses at match time
  (`Double.parseDouble`, `Integer.parseInt`), are stored as raw strings.
- `java.util.regex.Pattern.matches` is an external library call; it is
  threaded through as an oracle parameter `rf : String → String → Bool`.
- Strings are compared code-point-wise via `List Char`; indices count
  characters.  Numbers are modelled as exact rationals.
- Each matcher-context type carries an extra `unknown` constructor
  standing for any AST variant outside the closed set handled by the
  dispatchers (the Java `instanceof` chains' fall-through / the `switch`
  `default` arm).
-/

/-- Error outcomes of a match call, modelling the uncaught Java exceptions. -/
inductive MatchError where
  | unsupportedMatcherKind
  | malformedLiteral
  | nullPointer
  deriving DecidableEq, Repr

deriving instance DecidableEq for Except

/-! ### Character and string helpers -/

/-- Whitespace class of the Java regex `\s` (default, non-Unicode mode):
space, tab, newline, vertical tab, form feed, carriage return. -/
def isRegexSpace (c : Char) : Bool :=
  c == ' ' || c == '\t' || c == '\n' || c == '\x0B' || c == '\x0C' || c == '\r'

/-- Approximation of `Character.isWhitespace` restricted to the ASCII range
(the Unicode space separators it also accepts are not representable in the
test inputs we care about): tab through carriage return, the file/group/
record/unit separators, and space. -/
def isJavaWhitespace (c : Char) : Bool :=
  c == ' ' || c == '\t' || c == '\n' || c == '\x0B' || c == '\x0C' || c == '\r' ||
  c == '\x1C' || c == '\x1D' || c == '\x1E' || c == '\x1F'

/-- Modelling `String.isBlank`: every character is whitespace (true for the
empty string). -/
def isBlankStr (s : String) : Bool :=
  s.data.all isJavaWhitespace

/-- Whether `pat` is a prefix of `t` (`String.startsWith`). -/
def listStartsWith : List Char → List Char → Bool
  | _, [] => true
  | [], _ :: _ => false
  | c :: cs, p :: ps => c == p && listStartsWith cs ps

/-- Whether `pat` is a suffix of `t` (`String.endsWith`). -/
def listEndsWith (t pat : List Char) : Bool :=
  listStartsWith (t.drop (t.length - pat.length)) pat

/-- Lower-casing used to model `String.toLowerCase()`. -/
def toLowerList (cs : List Char) : List Char :=
  cs.map Char.toLower

/-- Modelling `String.equalsIgnoreCase` as equality after lower-casing. -/
def equalsIgnoreCaseStr (a b : String) : Bool :=
  toLowerList a.data == toLowerList b.data

/-- Scan of `String.indexOf(pat, fromIndex)`: first position `≥ i` at which
`pat` occurs in the remaining text `t`, as an absolute index. -/
def indexOfAux (pat : List Char) : List Char → Nat → Option Nat
  | [], i => if pat.isEmpty then some i else none
  | c :: rest, i =>
      if listStartsWith (c :: rest) pat then some i
      else indexOfAux pat rest (i + 1)

/-- Java `String.indexOf(pat, fromIndex)` (with the non-negative `fromIndex`
clamped to the length, as Java does). -/
def indexOfFrom (t pat : List Char) (start : Nat) : Option Nat :=
  indexOfAux pat (t.drop start) (min start t.length)

/-- Java `String.contains`. -/
def listContainsSub (t pat : List Char) : Bool :=
  (indexOfAux pat t 0).isSome

/-- Loop of the `StringContainsInOrderContext` branch: find each substring
starting at the current cursor, then move the cursor to just past the match. -/
def containsInOrderLoop (t : List Char) (pos : Nat) : List String → Bool
  | [] => true
  | s :: rest =>
      match indexOfFrom t s.data pos with
      | none => false
      | some idx => containsInOrderLoop t (idx + s.data.length) rest

/-- State-machine form of `text.replaceAll("\s+", " ")`: the flag records
whether we are inside a whitespace run whose single replacement space has
already been emitted. -/
def collapseWsAux : Bool → List Char → List Char
  | _, [] => []
  | inRun, c :: rest =>
      if isRegexSpace c then
        if inRun then collapseWsAux true rest
        else ' ' :: collapseWsAux true rest
      else c :: collapseWsAux false rest

/-- Collapse every maximal run of regex whitespace to a single space. -/
def collapseWsList (cs : List Char) : List Char :=
  collapseWsAux false cs

/-! ### Numeric token parsing -/

def isDigitChar (c : Char) : Bool :=
  '0' ≤ c && c ≤ '9'

def digitVal (c : Char) : Nat :=
  c.toNat - '0'.toNat

def digitsToNat (acc : Nat) : List Char → Nat
  | [] => acc
  | c :: rest => digitsToNat (acc * 10 + digitVal c) rest

/-- Split an optional leading sign, returning whether it was `-`. -/
def splitSign : List Char → Bool × List Char
  | '+' :: r => (false, r)
  | '-' :: r => (true, r)
  | r => (false, r)

/-- Parse the mantissa part of a decimal literal: digits, optionally with a
decimal point; at least one digit must be present on some side of the point.
Returns the digit value, the number of fraction digits (the represented
number is `value / 10 ^ scale`) and the remaining characters. -/
def parseNumMantissa (cs : List Char) : Option (Nat × Nat × List Char) :=
  let intDs := cs.takeWhile isDigitChar
  let r1 := cs.dropWhile isDigitChar
  match r1 with
  | '.' :: r2 =>
      let fracDs := r2.takeWhile isDigitChar
      let r3 := r2.dropWhile isDigitChar
      if intDs.isEmpty && fracDs.isEmpty then none
      else some (digitsToNat 0 (intDs ++ fracDs), fracDs.length, r3)
  | _ => if intDs.isEmpty then none else some (digitsToNat 0 intDs, 0, r1)

/-- Parse an optional exponent (`e`/`E`, optional sign, digits) and an
optional trailing float-type suffix (`d`/`D`/`f`/`F`), finishing the token;
produce the exact rational value of `mant / 10 ^ scale` adjusted by the
exponent. -/
def parseExpSuffix (mant : Nat) (scale : Nat) : List Char → Option Rat
  | [] => some (mkRat mant (10 ^ scale))
  | c :: rest =>
      if c == 'e' || c == 'E' then
        let (neg, rest2) := splitSign rest
        let ds := rest2.takeWhile isDigitChar
        let rest3 := rest2.dropWhile isDigitChar
        if ds.isEmpty then none
        else
          let e := digitsToNat 0 ds
          let v := if neg then mkRat mant (10 ^ (scale + e))
                   else mkRat (mant * 10 ^ e) (10 ^ scale)
          match rest3 with
          | [] => some v
          | [s] => if s == 'd' || s == 'D' || s == 'f' || s == 'F' then some v else none
          | _ => none
      else if (c == 'd' || c == 'D' || c == 'f' || c == 'F') && rest.isEmpty then
        some (mkRat mant (10 ^ scale))
      else none

/-- Modelling `Double.parseDouble` on decimal tokens, evaluated exactly over
the rationals (the `Infinity`/`NaN`/hexadecimal forms and whitespace trimming
of the Java method are omitted; a token outside the grammar yields `none`,
modelling the thrown `NumberFormatException`). -/
def parseNumberToken (tok : String) : Option Rat :=
  let (neg, cs1) := splitSign tok.data
  match parseNumMantissa cs1 with
  | none => none
  | some (mant, scale, rest) =>
      match parseExpSuffix mant scale rest with
      | none => none
      | some v => some (if neg then -v else v)

/-- Modelling `Integer.parseInt`: optional sign, then a non-empty run of
digits making up the whole token, within the 32-bit signed range (`none`
models the thrown `NumberFormatException`). -/
def parseIntToken (tok : String) : Option Int :=
  let (neg, cs1) := splitSign tok.data
  if cs1.isEmpty || !(cs1.all isDigitChar) then none
  else
    let n : Int := digitsToNat 0 cs1
    let v := if neg then -n else n
    if v < -2147483648 || 2147483647 < v then none else some v

/-! ### The value model and the matcher AST -/

/-- Runtime value tree (`io.sapl.api.model.Value` and its subtypes
`UndefinedValue`, `NullValue`, `BooleanValue`, `NumberValue`, `TextValue`,
`ArrayValue`, `ObjectValue`).  Object members are kept in insertion order,
keyed lookup takes the first binding for a key. -/
inductive Value where
  | undefined
  | null
  | bool (b : Bool)
  | num (q : Rat)
  | text (s : String)
  | array (elems : List Value)
  | obj (members : List (String × Value))

/-- Map lookup on an object's member list (`ObjectValue.get`); `none` models
`containsKey` being false. -/
def lookupKey (k : String) : List (String × Value) → Option Value
  | [] => none
  | (k2, v) :: rest => if k2 == k then some v else lookupKey k rest

mutual

/-- Structural equality of values (`Value.equals`), used by the exact-match
object matcher.  Mirrors a structural `equals` on the value tree; object
members are compared pairwise in order (the order-insensitivity of a Java
map `equals` is not needed by any property proved below). -/
def Value.beq : Value → Value → Bool
  | .undefined, .undefined => true
  | .null, .null => true
  | .bool a, .bool b => a == b
  | .num a, .num b => a == b
  | .text a, .text b => a == b
  | .array xs, .array ys => beqValueList xs ys
  | .obj xs, .obj ys => beqMemberList xs ys
  | _, _ => false

def beqValueList : List Value → List Value → Bool
  | [], [] => true
  | x :: xs, y :: ys => Value.beq x y && beqValueList xs ys
  | _, _ => false

def beqMemberList : List (String × Value) → List (String × Value) → Bool
  | [], [] => true
  | (k1, v1) :: xs, (k2, v2) :: ys => k1 == k2 && Value.beq v1 v2 && beqMemberList xs ys
  | _, _ => false

end

/-- String-matcher AST (`StringMatcherContext` sub-variants).  Literal
operands are stored unquoted, except the `withLength` operand which the code
parses with `Integer.parseInt` at match time and is kept as a raw token. -/
inductive StringMatcherContext where
  | isNull
  | isBlank
  | isEmpty
  | isNullOrEmpty
  | isNullOrBlank
  | equalCompressedWhitespace (matchValue : String)
  | equalIgnoringCase (matchValue : String)
  | matchesRegex (regex : String)
  | startsWithM (pfx : String) (caseInsensitive : Bool)
  | endsWithM (sfx : String) (caseInsensitive : Bool)
  | containsM (sub : String) (caseInsensitive : Bool)
  | containsInOrder (substrings : List String)
  | withLength (lenTok : String)
  | unknown

/-- Plain literal vs rich string matcher (`StringOrStringMatcherContext`). -/
inductive StringOrStringMatcherContext where
  | plainString (text : String)
  | complexMatcher (m : StringMatcherContext)
  | unknown

/-- Node-matcher AST (`NodeMatcherContext` sub-variants); `none` bodies are
the coarse type-only checks.  The `numberMatcher` literal is kept as a raw
token, parsed with `Double.parseDouble` at match time. -/
inductive NodeMatcherContext where
  | nullMatcher
  | textMatcher (sm : Option StringOrStringMatcherContext)
  | numberMatcher (tok : Option String)
  | booleanMatcher (lit : Option Bool)
  | arrayMatcher (body : Option (List NodeMatcherContext))
  | objectMatcher (body : Option (List (String × NodeMatcherContext)))
  | unknown

/-- Default-object matcher (`DefaultObjectMatcherContext`): exact equality
against a literal already converted to a `Value`, or a wrapped node matcher. -/
inductive DefaultObjectMatcherContext where
  | exactMatch (expected : Value)
  | matching (m : NodeMatcherContext)
  | unknown

/-- Extended matcher for obligations/advice (`ExtendedObjectMatcherContext`). -/
inductive ExtendedObjectMatcherContext where
  | defaultExtended (m : DefaultObjectMatcherContext)
  | keyValueMatcher (key : String) (m : Option NodeMatcherContext)
  | unknown

/-- Decision verdicts (`io.sapl.api.pdp` decision enumeration). -/
inductive Verdict where
  | permit
  | deny
  | indeterminate
  | notApplicable
  deriving DecidableEq, BEq, Repr

/-- Authorization decision (`io.sapl.api.pdp.AuthorizationDecision`):
verdict, nullable obligation and advice lists, nullable resource. -/
structure Decision where
  decision : Verdict
  obligations : Option (List Value)
  advice : Option (List Value)
  resource : Option Value

/-- Decision-level matcher clauses (`AuthorizationDecisionMatcherContext`
sub-variants).  `hasObligationOrAdvice` carries the raw `matcherType` token
text ("obligation" or "advice", compared case-insensitively by the code). -/
inductive AuthorizationDecisionMatcherContext where
  | anyDecision
  | isDecision (expected : Verdict)
  | hasObligationOrAdvice (matcherType : String) (em : Option ExtendedObjectMatcherContext)
  | hasResource (dm : Option DefaultObjectMatcherContext)
  | unknown

/-! ### The matching engine -/

/-- Dispatcher `matchComplexString(String text, StringMatcherContext)`.
The `rf` oracle stands for the external `Pattern.matches(regex, text)`. -/
def matchComplexString (rf : String → String → Bool) (text : Option String) :
    StringMatcherContext → Except MatchError Bool
  | .isNull => .ok text.isNone
  | .isBlank => .ok (match text with | none => false | some t => isBlankStr t)
  | .isEmpty => .ok (match text with | none => false | some t => t.isEmpty)
  | .isNullOrEmpty => .ok (match text with | none => true | some t => t.isEmpty)
  | .isNullOrBlank => .ok (match text with | none => true | some t => isBlankStr t)
  | .equalCompressedWhitespace expected =>
      match text with
      | none => .error .nullPointer
      | some t => .ok (collapseWsList t.data == expected.data)
  | .equalIgnoringCase expected =>
      match text with
      | none => .error .nullPointer
      | some t => .ok (equalsIgnoreCaseStr t expected)
  | .matchesRegex regex =>
      match text with
      | none => .error .nullPointer
      | some t => .ok (rf regex t)
  | .startsWithM pfx ci =>
      match text with
      | none => .error .nullPointer
      | some t =>
          .ok (if ci then listStartsWith (toLowerList t.data) (toLowerList pfx.data)
               else listStartsWith t.data pfx.data)
  | .endsWithM sfx ci =>
      match text with
      | none => .error .nullPointer
      | some t =>
          .ok (if ci then listEndsWith (toLowerList t.data) (toLowerList sfx.data)
               else listEndsWith t.data sfx.data)
  | .containsM sub ci =>
      match text with
      | none => .error .nullPointer
      | some t =>
          .ok (if ci then listContainsSub (toLowerList t.data) (toLowerList sub.data)
               else listContainsSub t.data sub.data)
  | .containsInOrder subs =>
      match text with
      | none => .error .nullPointer
      | some t => .ok (containsInOrderLoop t.data 0 subs)
  | .withLength lenTok =>
      match parseIntToken lenTok with
      | none => .error .malformedLiteral
      | some n =>
          match text with
          | none => .error .nullPointer
          | some t => .ok ((t.data.length : Int) == n)
  | .unknown => .ok false

/-- Dispatcher `matchString(String text, StringOrStringMatcherContext)`. -/
def matchString (rf : String → String → Bool) (text : Option String) :
    StringOrStringMatcherContext → Except MatchError Bool
  | .plainString expected => .ok (match text with | none => false | some t => expected == t)
  | .complexMatcher m => matchComplexString rf text m
  | .unknown => .ok false

mutual

/-- Recursive dispatcher `matchNode(Value node, NodeMatcherContext matcher)`
(value reference known non-null; see `matchNodeRef` for the nullable entry
point).  The `arrayMatcher` branch inlines `matchArrayBody`'s exact-size
check followed by the pairwise loop. -/
def matchNode (rf : String → String → Bool) : Value → NodeMatcherContext → Except MatchError Bool
  | v, .nullMatcher => .ok (match v with | .null => true | _ => false)
  | v, .textMatcher sm? =>
      match v with
      | .text s =>
          match sm? with
          | none => .ok true
          | some sm => matchString rf (some s) sm
      | _ => .ok false
  | v, .numberMatcher tok? =>
      match v with
      | .num q =>
          match tok? with
          | none => .ok true
          | some tok =>
              match parseNumberToken tok with
              | none => .error .malformedLiteral
              | some lit => .ok (q == lit)
      | _ => .ok false
  | v, .booleanMatcher lit? =>
      match v with
      | .bool b =>
          match lit? with
          | none => .ok true
          | some expected => .ok (b == expected)
      | _ => .ok false
  | v, .arrayMatcher body? =>
      match v with
      | .array elems =>
          match body? with
          | none => .ok true
          | some ms =>
              if elems.length == ms.length then matchListPair rf elems ms else .ok false
      | _ => .ok false
  | v, .objectMatcher body? =>
      match v with
      | .obj members =>
          match body? with
          | none => .ok true
          | some body => matchObjectBody rf members body
      | _ => .ok false
  | _, .unknown => .ok false

/-- Pairwise element loop of `matchArrayBody` (runs after the exact-size
check, so the two lists have equal length at every call). -/
def matchListPair (rf : String → String → Bool) :
    List Value → List NodeMatcherContext → Except MatchError Bool
  | [], [] => .ok true
  | v :: vs, m :: ms =>
      match matchNode rf v m with
      | .error e => .error e
      | .ok true => matchListPair rf vs ms
      | .ok false => .ok false
  | _, _ => .ok false

/-- Member loop of `matchObjectBody(ObjectValue obj, body)`: every declared
member's key must be present and its value must satisfy the member matcher. -/
def matchObjectBody (rf : String → String → Bool) (members : List (String × Value)) :
    List (String × NodeMatcherContext) → Except MatchError Bool
  | [] => .ok true
  | (k, m) :: rest =>
      match lookupKey k members with
      | none => .ok false
      | some v =>
          match matchNode rf v m with
          | .error e => .error e
          | .ok true => matchObjectBody rf members rest
          | .ok false => .ok false

end

/-- Entry point of `matchNode` for a possibly-null value reference:
`NullMatcher` accepts the null reference, every other branch fails its
`instanceof` test on null and returns false. -/
def matchNodeRef (rf : String → String → Bool) (n : Option Value) (m : NodeMatcherContext) :
    Except MatchError Bool :=
  match n with
  | some v => matchNode rf v m
  | none =>
      match m with
      | .nullMatcher => .ok true
      | _ => .ok false

/-- Dispatcher `matchDefaultObject(Value node, DefaultObjectMatcherContext)`. -/
def matchDefaultObject (rf : String → String → Bool) (node : Value) :
    DefaultObjectMatcherContext → Except MatchError Bool
  | .exactMatch expected => .ok (Value.beq expected node)
  | .matching m => matchNode rf node m
  | .unknown => .ok false

/-- Short-circuiting `Stream.anyMatch` with an effectful predicate: a thrown
exception from the predicate aborts the scan. -/
def anyMatchM (f : Value → Except MatchError Bool) : List Value → Except MatchError Bool
  | [] => .ok false
  | c :: rest =>
      match f c with
      | .error e => .error e
      | .ok true => .ok true
      | .ok false => anyMatchM f rest

/-- Per-candidate check of the key-value extended matcher: the candidate must
be an object containing the key; with no nested matcher, key presence
suffices, otherwise the key's value must satisfy the nested node matcher. -/
def keyValueElementPred (rf : String → String → Bool) (key : String)
    (m? : Option NodeMatcherContext) (c : Value) : Except MatchError Bool :=
  match c with
  | .obj members =>
      match lookupKey key members with
      | none => .ok false
      | some v =>
          match m? with
          | none => .ok true
          | some m => matchNode rf v m
  | _ => .ok false

/-- Dispatcher `matchExtendedConstraint(List<Value> constraints, matcher)`:
exists-semantics over the constraint list. -/
def matchExtendedConstraint (rf : String → String → Bool) (constraints : List Value) :
    ExtendedObjectMatcherContext → Except MatchError Bool
  | .defaultExtended dm => anyMatchM (fun c => matchDefaultObject rf c dm) constraints
  | .keyValueMatcher key m? => anyMatchM (keyValueElementPred rf key m?) constraints
  | .unknown => .ok false

/-! ### The decision predicate builder -/

/-- Predicates over a nullable decision, with effects. -/
abbrev DecisionPred := Option Decision → Except MatchError Bool

/-- Java `Predicate.and` under the exception model: short-circuits
left-to-right, a thrown exception propagates. -/
def predAnd (p q : DecisionPred) : DecisionPred := fun d =>
  match p d with
  | .error e => .error e
  | .ok true => q d
  | .ok false => .ok false

/-- The seed predicate `Objects::nonNull` of the combined builder. -/
def nonNullPred : DecisionPred := fun d => .ok d.isSome

/-- Per-clause builder `buildSingleMatcherPredicate`: the `switch` throws
`IllegalArgumentException` on a matcher variant outside the closed set; the
returned predicates all reject the null decision. -/
def buildSingleMatcherPredicate (rf : String → String → Bool) :
    AuthorizationDecisionMatcherContext → Except MatchError DecisionPred
  | .anyDecision => .ok (fun d => .ok d.isSome)
  | .isDecision expected =>
      .ok (fun d => .ok (match d with
        | none => false
        | some dec => dec.decision == expected))
  | .hasObligationOrAdvice matcherType em? =>
      .ok (fun d =>
        match d with
        | none => .ok false
        | some dec =>
            match (if equalsIgnoreCaseStr "obligation" matcherType
                   then dec.obligations else dec.advice) with
            | none => .ok false
            | some cs =>
                if cs.isEmpty then .ok false
                else
                  match em? with
                  | none => .ok true
                  | some em => matchExtendedConstraint rf cs em)
  | .hasResource dm? =>
      .ok (fun d =>
        match d with
        | none => .ok false
        | some dec =>
            match dm? with
            | none =>
                .ok (match dec.resource with
                  | none => false
                  | some .undefined => false
                  | some _ => true)
            | some dm =>
                match dec.resource with
                | none => .ok false
                | some .undefined => .ok false
                | some r => matchDefaultObject rf r dm)
  | .unknown => .error .unsupportedMatcherKind

/-- Loop of `buildCombinedMatcherPredicate`: conjoin the clause predicates
onto the accumulator left-to-right; a throwing clause build aborts the whole
build. -/
def buildCombinedLoop (rf : String → String → Bool) (acc : DecisionPred) :
    List AuthorizationDecisionMatcherContext → Except MatchError DecisionPred
  | [] => .ok acc
  | m :: rest =>
      match buildSingleMatcherPredicate rf m with
      | .error e => .error e
      | .ok p => buildCombinedLoop rf (predAnd acc p) rest

/-- Builder `buildCombinedMatcherPredicate`: starts from `Objects::nonNull`
and `and`s one predicate per clause. -/
def buildCombinedMatcherPredicate (rf : String → String → Bool)
    (matchers : List AuthorizationDecisionMatcherContext) : Except MatchError DecisionPred :=
  buildCombinedLoop rf nonNullPred matchers

/-- Build a single clause's predicate and apply it to a decision. -/
def applySingle (rf : String → String → Bool) (m : AuthorizationDecisionMatcherContext)
    (d : Option Decision) : Except MatchError Bool :=
  match buildSingleMatcherPredicate rf m with
  | .error e => .error e
  | .ok p => p d

/-- Build the combined predicate and apply it to a decision. -/
def applyCombined (rf : String → String → Bool)
    (ms : List AuthorizationDecisionMatcherContext) (d : Option Decision) :
    Except MatchError Bool :=
  match buildCombinedMatcherPredicate rf ms with
  | .error e => .error e
  | .ok p => p d

/-! ### Specification-side definitions used to state the claims -/

/-- Trivial regex oracle used to instantiate theorems at concrete inputs
(none of the instantiated matchers contain a regex variant). -/
def rfFalse : String → String → Bool := fun _ _ => false

/-- The substring `pat` occurs in `t` at position `i`. -/
def occursAt (t pat : List Char) (i : Nat) : Prop :=
  listStartsWith (t.drop i) pat = true

/-- Declarative reading of contains-substrings-in-order, from the spec's
words: starting at `cursor`, each substring occurs at some position at or
after the cursor, and the next search continues strictly past the matched
segment (positions are non-decreasing and the matched segments do not
overlap). -/
def InOrderFrom (t : List Char) : Nat → List String → Prop
  | _, [] => True
  | cursor, s :: rest =>
      ∃ i, cursor ≤ i ∧ occursAt t s.data i ∧ InOrderFrom t (i + s.data.length) rest

/-- Declarative reading of whitespace-run collapsing, from the spec's words:
a maximal run of whitespace (the leading whitespace character together with
every whitespace character immediately following it) becomes one space. -/
def collapseWsSpec : List Char → List Char
  | [] => []
  | c :: rest =>
      if isRegexSpace c then ' ' :: collapseWsSpec (rest.dropWhile isRegexSpace)
      else c :: collapseWsSpec rest
termination_by l => l.length
decreasing_by
  · simp only [List.length_cons]
    have := (List.dropWhile_sublist (l := rest) isRegexSpace).length_le
    omega
  · simp [List.length_cons]

/-- Reachability of a successful is-null string match through the node
matcher: this is the formal reading of the claim that some call site of the
string matcher can supply absent (no-text) input — inside the engine, text
reaches the string matcher only from a `TextValue`, so an is-null matcher
could only succeed if some value made the engine pass absent text. -/
def engineCanSupplyAbsentText : Prop :=
  ∃ (rf : String → String → Bool) (v : Value),
    matchNode rf v (.textMatcher (some (.complexMatcher .isNull))) = .ok true

/-! ### Helper lemmas -/

theorem listStartsWith_length : ∀ t pat : List Char, listStartsWith t pat = true →
    pat.length ≤ t.length
  | _, [], _ => Nat.zero_le _
  | [], _ :: _, h => by simp [listStartsWith] at h
  | c :: cs, p :: ps, h => by
      simp only [listStartsWith, Bool.and_eq_true] at h
      simpa using Nat.succ_le_succ (listStartsWith_length cs ps h.2)

theorem forall_zip_get {α β : Type _} (P : α → β → Prop) :
    ∀ (xs : List α) (ys : List β), xs.length = ys.length →
      ((∀ p ∈ xs.zip ys, P p.1 p.2) ↔
        ∀ i : Nat, ∀ hx : i < xs.length, ∀ hy : i < ys.length,
          P (xs.get ⟨i, hx⟩) (ys.get ⟨i, hy⟩))
  | [], [], _ => by simp
  | [], _ :: _, h => by simp at h
  | _ :: _, [], h => by simp at h
  | x :: xs, y :: ys, h => by
      have ih := forall_zip_get P xs ys (by simpa using h)
      simp only [List.zip_cons_cons, List.mem_cons, forall_eq_or_imp, ih]
      constructor
      · rintro ⟨h0, hrest⟩ i hx hy
        cases i with
        | zero => exact h0
        | succ i => exact hrest i (by simpa using hx) (by simpa using hy)
      · intro hall
        exact ⟨hall 0 (by simp) (by simp),
          fun i hx hy => hall (i + 1) (by simpa using hx) (by simpa using hy)⟩

theorem matchListPair_iff (rf : String → String → Bool) :
    ∀ (vs : List Value) (ms : List NodeMatcherContext), vs.length = ms.length →
      (matchListPair rf vs ms = .ok true ↔
        ∀ p ∈ vs.zip ms, matchNode rf p.1 p.2 = .ok true)
  | [], [], _ => by simp [matchListPair]
  | [], _ :: _, h => by simp at h
  | _ :: _, [], h => by simp at h
  | v :: vs, m :: ms, h => by
      have ih := matchListPair_iff rf vs ms (by simpa using h)
      simp only [matchListPair, List.zip_cons_cons, List.mem_cons, forall_eq_or_imp]
      cases hvm : matchNode rf v m with
      | error e => simp [hvm]
      | ok b =>
          cases b
          · simp [hvm]
          · simp [hvm, ih]

theorem matchObjectBody_iff (rf : String → String → Bool) (members : List (String × Value)) :
    ∀ body : List (String × NodeMatcherContext),
      (matchObjectBody rf members body = .ok true ↔
        ∀ p ∈ body, ∃ v, lookupKey p.1 members = some v ∧ matchNode rf v p.2 = .ok true)
  | [] => by simp [matchObjectBody]
  | (k, m) :: rest => by
      have ih := matchObjectBody_iff rf members rest
      simp only [matchObjectBody, List.mem_cons, forall_eq_or_imp]
      cases hk : lookupKey k members with
      | none => simp [hk]
      | some v =>
          cases hm : matchNode rf v m with
          | error e => simp [hk, hm]
          | ok b =>
              cases b
              · simp [hk, hm]
              · simp [hk, hm, ih]

theorem lookupKey_insert_ne (kIns : String) (vIns : Value) :
    ∀ (l1 l2 : List (String × Value)) (q : String), kIns ≠ q →
      lookupKey q (l1 ++ (kIns, vIns) :: l2) = lookupKey q (l1 ++ l2)
  | [], l2, q, hne => by
      have : (kIns == q) = false := by simpa using hne
      simp [lookupKey, this]
  | (k1, v1) :: l1, l2, q, hne => by
      by_cases h1 : (k1 == q) = true
      · simp [lookupKey, h1]
      · simp only [List.cons_append, lookupKey, Bool.not_eq_true] at *
        simp [h1, lookupKey_insert_ne kIns vIns l1 l2 q hne]

theorem collapseWsAux_eq_spec : ∀ l : List Char,
    collapseWsAux false l = collapseWsSpec l ∧
    collapseWsAux true l = collapseWsSpec (l.dropWhile isRegexSpace)
  | [] => by constructor <;> simp [collapseWsAux, collapseWsSpec]
  | c :: rest => by
      have ih := collapseWsAux_eq_spec rest
      by_cases hc : isRegexSpace c = true
      · have hdw : (c :: rest).dropWhile isRegexSpace = rest.dropWhile isRegexSpace :=
          List.dropWhile_cons_of_pos hc
        constructor
        · simp [collapseWsAux, collapseWsSpec, hc, ih.2]
        · simp [collapseWsAux, hc, ih.2, hdw]
      · rw [Bool.not_eq_true] at hc
        have hdw : (c :: rest).dropWhile isRegexSpace = c :: rest :=
          List.dropWhile_cons_of_neg (by simp [hc])
        constructor
        · simp [collapseWsAux, collapseWsSpec, hc, ih.1]
        · simp [collapseWsAux, collapseWsSpec, hc, ih.1, hdw]

/-! ### Claim theorems -/

/-- C2 counterexample: the node-matcher dispatcher, applied to a matcher
variant outside the declared closed set, returns false (an ordinary
non-match) instead of failing with a contract-violation error, refuting the
claim that every dispatcher fails with such an error. -/
theorem C2_counterexample :
    matchNode rfFalse Value.null NodeMatcherContext.unknown = .ok false := rfl

/-- C2 (amended): only the decision-predicate builder fails with a
contract-violation error on a matcher variant outside the declared closed
set; the node matcher, string matcher, constraint matcher and
default-object matcher dispatchers instead return false. -/
theorem C2_unknown_variant_dispatch (rf : String → String → Bool) :
    (∀ v, matchNode rf v .unknown = .ok false) ∧
    (∀ t, matchString rf t .unknown = .ok false) ∧
    (∀ t, matchComplexString rf t .unknown = .ok false) ∧
    (∀ cs, matchExtendedConstraint rf cs .unknown = .ok false) ∧
    (∀ v, matchDefaultObject rf v .unknown = .ok false) ∧
    buildSingleMatcherPredicate rf .unknown = .error .unsupportedMatcherKind :=
  ⟨fun _ => rfl, fun _ => rfl, fun _ => rfl, fun _ => rfl, fun _ => rfl, rfl⟩

/-- C3: matching an Array value against an ArrayMatcher with a body succeeds
iff the element counts are exactly equal and each element at position i
satisfies the element matcher at position i; in particular a 2-element array
never matches a 3-element ArrayMatcher, for any choice of element matchers. -/
theorem C3_array_exact_arity (rf : String → String → Bool) :
    (∀ (elems : List Value) (ms : List NodeMatcherContext),
      matchNode rf (.array elems) (.arrayMatcher (some ms)) = .ok true ↔
        elems.length = ms.length ∧
          ∀ i : Nat, ∀ hv : i < elems.length, ∀ hm : i < ms.length,
            matchNode rf (elems.get ⟨i, hv⟩) (ms.get ⟨i, hm⟩) = .ok true) ∧
    (∀ (v1 v2 : Value) (m1 m2 m3 : NodeMatcherContext),
      matchNode rf (.array [v1, v2]) (.arrayMatcher (some [m1, m2, m3])) = .ok false) := by
  constructor
  · intro elems ms
    by_cases h : elems.length = ms.length
    · have hb : (elems.length == ms.length) = true := by simpa using h
      simp only [matchNode, hb, if_true]
      rw [matchListPair_iff rf elems ms h, forall_zip_get (fun v m => matchNode rf v m = .ok true) elems ms h]
      simp [h]
    · have hb : (elems.length == ms.length) = false := by simpa using h
      simp [matchNode, hb, h]
  · intro v1 v2 m1 m2 m3
    rfl

/-- C6: equal-ignoring-whitespace-runs collapses every maximal run of
whitespace in the input to a single space and compares the result for exact
equality with the expected literal, which is itself not collapsed; in
particular "a   b\tc" matches the expected literal "a b c" and "ab c" does
not. -/
theorem C6_equal_ignoring_whitespace_runs (rf : String → String → Bool) :
    (∀ t expected : String,
        matchComplexString rf (some t) (.equalCompressedWhitespace expected) = .ok true ↔
          collapseWsSpec t.data = expected.data) ∧
    matchComplexString rf (some "a   b\tc") (.equalCompressedWhitespace "a b c") = .ok true ∧
    matchComplexString rf (some "ab c") (.equalCompressedWhitespace "a b c") = .ok false := by
  refine ⟨fun t expected => ?_, rfl, rfl⟩
  have heq := (collapseWsAux_eq_spec t.data).1
  simp [matchComplexString, collapseWsList, heq]

/-- C8: a NumberMatcher whose literal operand fails numeric parsing, and a
has-length string matcher whose length operand fails integer parsing, make
the match call fail with the malformed-literal contract violation; the parse
failure is not converted into a false match result. -/
theorem C8_malformed_literal (rf : String → String → Bool) :
    (∀ tok : String, parseNumberToken tok = none →
        ∀ q : Rat, matchNode rf (.num q) (.numberMatcher (some tok)) = .error .malformedLiteral) ∧
    (∀ tok : String, parseIntToken tok = none →
        ∀ t : Option String,
          matchComplexString rf t (.withLength tok) = .error .malformedLiteral) := by
  constructor
  · intro tok h q
    simp [matchNode, h]
  · intro tok h t
    simp [matchComplexString, h]

/-- C8 witness: concrete malformed tokens produce the malformed-literal
error via the theorem. -/
theorem C8_malformed_literal_witness :
    matchNode rfFalse (.num 1) (.numberMatcher (some "abc")) = .error .malformedLiteral ∧
    matchComplexString rfFalse (some "xy") (.withLength "2x") = .error .malformedLiteral :=
  ⟨(C8_malformed_literal rfFalse).1 "abc" (by decide) 1,
   (C8_malformed_literal rfFalse).2 "2x" (by decide) (some "xy")⟩

/-- C4: matching an Object value against an ObjectMatcher with a body
succeeds iff every declared member's key is present in the object with a
value satisfying the member matcher, keys of the object not declared in the
matcher being ignored; consequently adding a binding for an undeclared key
anywhere in the object preserves a successful match. -/
theorem C4_object_subset_monotone (rf : String → String → Bool) :
    (∀ (members : List (String × Value)) (body : List (String × NodeMatcherContext)),
      matchNode rf (.obj members) (.objectMatcher (some body)) = .ok true ↔
        ∀ p ∈ body, ∃ v, lookupKey p.1 members = some v ∧ matchNode rf v p.2 = .ok true) ∧
    (∀ (l1 l2 : List (String × Value)) (body : List (String × NodeMatcherContext))
        (k : String) (v : Value),
      (∀ p ∈ body, p.1 ≠ k) →
      matchNode rf (.obj (l1 ++ l2)) (.objectMatcher (some body)) = .ok true →
      matchNode rf (.obj (l1 ++ (k, v) :: l2)) (.objectMatcher (some body)) = .ok true) := by
  have hbase : ∀ members body, matchNode rf (.obj members) (.objectMatcher (some body)) =
      matchObjectBody rf members body := fun _ _ => rfl
  constructor
  · intro members body
    rw [hbase]
    exact matchObjectBody_iff rf members body
  · intro l1 l2 body k v hk h
    rw [hbase, matchObjectBody_iff] at h ⊢
    intro p hp
    obtain ⟨w, hw, hm⟩ := h p hp
    refine ⟨w, ?_, hm⟩
    rw [lookupKey_insert_ne k v l1 l2 p.1 (hk p hp).symm]
    exact hw

/-- C4 witness: the spec's example object with an extra undeclared key
still matches via the monotonicity part of the theorem. -/
theorem C4_object_subset_monotone_witness :
    matchNode rfFalse (.obj [("a", .num 1), ("c", .null), ("b", .num 2)])
      (.objectMatcher (some [("a", .numberMatcher (some "1"))])) = .ok true :=
  (C4_object_subset_monotone rfFalse).2 [("a", .num 1)] [("b", .num 2)]
    [("a", .numberMatcher (some "1"))] "c" .null (by decide) (by decide)

theorem matchComplexString_some_no_error (rf : String → String → Bool) :
    ∀ (m : StringMatcherContext) (s s' : String) (e : MatchError),
      matchComplexString rf (some s) m = .ok true →
      matchComplexString rf (some s') m ≠ .error e := by
  intro m s s' e h
  cases m
  case withLength tok =>
    cases hp : parseIntToken tok with
    | none => simp [matchComplexString, hp] at h
    | some n => simp [matchComplexString, hp]
  all_goals simp [matchComplexString]

theorem matchString_some_no_error (rf : String → String → Bool) :
    ∀ (sm : StringOrStringMatcherContext) (s s' : String) (e : MatchError),
      matchString rf (some s) sm = .ok true → matchString rf (some s') sm ≠ .error e
  | .plainString p, _, _, _, _ => by simp [matchString]
  | .complexMatcher m, s, s', e, h => by
      simp only [matchString] at h ⊢
      exact matchComplexString_some_no_error rf m s s' e h
  | .unknown, _, _, _, _ => by simp [matchString]

mutual

/-- Key invariant behind the unconditional exists-semantics of the
constraint matcher: a node matcher that some value satisfies can never
throw on any other value — every literal operand on a path required for a
successful match must have parsed successfully. -/
theorem matchNode_satisfiable_no_error (rf : String → String → Bool) :
    ∀ (m : NodeMatcherContext) (v v' : Value) (e : MatchError),
      matchNode rf v m = .ok true → matchNode rf v' m ≠ .error e
  | .nullMatcher, _, v', _, _ => by simp [matchNode]
  | .textMatcher none, _, v', _, _ => by cases v' <;> simp [matchNode]
  | .textMatcher (some sm), v, v', e, h => by
      cases v with
      | text s =>
          cases v' with
          | text s' =>
              simp only [matchNode] at h ⊢
              exact matchString_some_no_error rf sm s s' e h
          | undefined => simp [matchNode]
          | null => simp [matchNode]
          | bool b => simp [matchNode]
          | num q => simp [matchNode]
          | array es => simp [matchNode]
          | obj mem => simp [matchNode]
      | undefined => simp [matchNode] at h
      | null => simp [matchNode] at h
      | bool b => simp [matchNode] at h
      | num q => simp [matchNode] at h
      | array es => simp [matchNode] at h
      | obj mem => simp [matchNode] at h
  | .numberMatcher none, _, v', _, _ => by cases v' <;> simp [matchNode]
  | .numberMatcher (some tok), v, v', e, h => by
      cases v with
      | num q =>
          simp only [matchNode] at h
          cases hp : parseNumberToken tok with
          | none => rw [hp] at h; simp at h
          | some lit =>
              cases v' with
              | num q' => simp [matchNode, hp]
              | undefined => simp [matchNode]
              | null => simp [matchNode]
              | bool b => simp [matchNode]
              | text s => simp [matchNode]
              | array es => simp [matchNode]
              | obj mem => simp [matchNode]
      | undefined => simp [matchNode] at h
      | null => simp [matchNode] at h
      | bool b => simp [matchNode] at h
      | text s => simp [matchNode] at h
      | array es => simp [matchNode] at h
      | obj mem => simp [matchNode] at h
  | .booleanMatcher lit?, _, v', _, _ => by cases v' <;> cases lit? <;> simp [matchNode]
  | .arrayMatcher none, _, v', _, _ => by cases v' <;> simp [matchNode]
  | .arrayMatcher (some ms), v, v', e, h => by
      cases v with
      | array es =>
          simp only [matchNode] at h
          by_cases hlen : (es.length == ms.length) = true
          · rw [if_pos hlen] at h
            cases v' with
            | array es' =>
                simp only [matchNode]
                by_cases hlen' : (es'.length == ms.length) = true
                · rw [if_pos hlen']
                  exact matchListPair_satisfiable_no_error rf ms es es' e h
                · rw [if_neg hlen']
                  simp
            | undefined => simp [matchNode]
            | null => simp [matchNode]
            | bool b => simp [matchNode]
            | num q => simp [matchNode]
            | text s => simp [matchNode]
            | obj mem => simp [matchNode]
          · rw [if_neg hlen] at h
            simp at h
      | undefined => simp [matchNode] at h
      | null => simp [matchNode] at h
      | bool b => simp [matchNode] at h
      | num q => simp [matchNode] at h
      | text s => simp [matchNode] at h
      | obj mem => simp [matchNode] at h
  | .objectMatcher none, _, v', _, _ => by cases v' <;> simp [matchNode]
  | .objectMatcher (some body), v, v', e, h => by
      cases v with
      | obj mem =>
          simp only [matchNode] at h
          cases v' with
          | obj mem' =>
              simp only [matchNode]
              exact matchObjectBody_satisfiable_no_error rf body mem mem' e h
          | undefined => simp [matchNode]
          | null => simp [matchNode]
          | bool b => simp [matchNode]
          | num q => simp [matchNode]
          | text s => simp [matchNode]
          | array es => simp [matchNode]
      | undefined => simp [matchNode] at h
      | null => simp [matchNode] at h
      | bool b => simp [matchNode] at h
      | num q => simp [matchNode] at h
      | text s => simp [matchNode] at h
      | array es => simp [matchNode] at h
  | .unknown, _, v', _, _ => by simp [matchNode]

theorem matchListPair_satisfiable_no_error (rf : String → String → Bool) :
    ∀ (ms : List NodeMatcherContext) (es es' : List Value) (e : MatchError),
      matchListPair rf es ms = .ok true → matchListPair rf es' ms ≠ .error e
  | [], _, es', _, _ => by cases es' <;> simp [matchListPair]
  | m :: ms', es, es', e, h => by
      cases es with
      | nil => simp [matchListPair] at h
      | cons w ws =>
          simp only [matchListPair] at h
          cases hw : matchNode rf w m with
          | error e2 => rw [hw] at h; simp at h
          | ok b =>
              rw [hw] at h
              cases b
              · simp at h
              · cases es' with
                | nil => simp [matchListPair]
                | cons w' ws' =>
                    simp only [matchListPair]
                    cases hw' : matchNode rf w' m with
                    | error e2 =>
                        exact absurd hw' (matchNode_satisfiable_no_error rf m w w' e2 hw)
                    | ok b' =>
                        cases b'
                        · simp
                        · exact matchListPair_satisfiable_no_error rf ms' ws ws' e h

theorem matchObjectBody_satisfiable_no_error (rf : String → String → Bool) :
    ∀ (body : List (String × NodeMatcherContext)) (mem mem' : List (String × Value))
      (e : MatchError),
      matchObjectBody rf mem body = .ok true → matchObjectBody rf mem' body ≠ .error e
  | [], _, _, _, _ => by simp [matchObjectBody]
  | (k, m) :: rest, mem, mem', e, h => by
      simp only [matchObjectBody] at h ⊢
      cases hk : lookupKey k mem with
      | none => simp [hk] at h
      | some w =>
          simp only [hk] at h
          cases hw : matchNode rf w m with
          | error e2 => simp [hw] at h
          | ok b =>
              simp only [hw] at h
              cases b
              · simp at h
              · replace h : matchObjectBody rf mem rest = .ok true := h
                cases hk' : lookupKey k mem' with
                | none => simp
                | some w' =>
                    intro habs
                    replace habs : (match matchNode rf w' m with
                      | Except.error e => Except.error e
                      | Except.ok true => matchObjectBody rf mem' rest
                      | Except.ok false => Except.ok false) = Except.error e := habs
                    cases hw' : matchNode rf w' m with
                    | error e2 =>
                        exact absurd hw' (matchNode_satisfiable_no_error rf m w w' e2 hw)
                    | ok b' =>
                        rw [hw'] at habs
                        cases b'
                        · simp at habs
                        · exact matchObjectBody_satisfiable_no_error rf rest mem mem' e h habs

end

theorem matchDefaultObject_satisfiable_no_error (rf : String → String → Bool) :
    ∀ (dm : DefaultObjectMatcherContext) (c c' : Value) (e : MatchError),
      matchDefaultObject rf c dm = .ok true → matchDefaultObject rf c' dm ≠ .error e
  | .exactMatch _, _, _, _, _ => by simp [matchDefaultObject]
  | .matching m, c, c', e, h => by
      simp only [matchDefaultObject] at h ⊢
      exact matchNode_satisfiable_no_error rf m c c' e h
  | .unknown, _, _, _, _ => by simp [matchDefaultObject]

theorem keyValueElementPred_satisfiable_no_error (rf : String → String → Bool)
    (key : String) (m? : Option NodeMatcherContext) (c c' : Value) (e : MatchError)
    (h : keyValueElementPred rf key m? c = .ok true) :
    keyValueElementPred rf key m? c' ≠ .error e := by
  cases c with
  | obj members =>
      simp only [keyValueElementPred] at h
      cases hk : lookupKey key members with
      | none => simp [hk] at h
      | some w =>
          simp only [hk] at h
          cases c' with
          | obj members' =>
              simp only [keyValueElementPred]
              cases hk' : lookupKey key members' with
              | none => simp
              | some w' =>
                  cases m? with
                  | none => simp
                  | some m =>
                      simp only [] at h ⊢
                      cases hw' : matchNode rf w' m with
                      | error e2 =>
                          exact absurd hw' (matchNode_satisfiable_no_error rf m w w' e2 h)
                      | ok b' => simp
          | undefined => simp [keyValueElementPred]
          | null => simp [keyValueElementPred]
          | bool b => simp [keyValueElementPred]
          | num q => simp [keyValueElementPred]
          | text s => simp [keyValueElementPred]
          | array es => simp [keyValueElementPred]
  | undefined => simp [keyValueElementPred] at h
  | null => simp [keyValueElementPred] at h
  | bool b => simp [keyValueElementPred] at h
  | num q => simp [keyValueElementPred] at h
  | text s => simp [keyValueElementPred] at h
  | array es => simp [keyValueElementPred] at h

theorem anyMatchM_ok_true_exists (f : Value → Except MatchError Bool) :
    ∀ cs, anyMatchM f cs = .ok true → ∃ c ∈ cs, f c = .ok true
  | [], h => by simp [anyMatchM] at h
  | c :: cs, h => by
      simp only [anyMatchM] at h
      cases hc : f c with
      | error e => rw [hc] at h; simp at h
      | ok b =>
          rw [hc] at h
          cases b
          · obtain ⟨x, hx, hfx⟩ := anyMatchM_ok_true_exists f cs h
            exact ⟨x, List.mem_cons_of_mem c hx, hfx⟩
          · exact ⟨c, List.mem_cons_self c cs, hc⟩

theorem anyMatchM_of_exists (f : Value → Except MatchError Bool)
    (hne : ∀ c e, f c ≠ .error e) :
    ∀ cs, (∃ c ∈ cs, f c = .ok true) → anyMatchM f cs = .ok true
  | [], h => by simp at h
  | c :: cs, h => by
      simp only [anyMatchM]
      cases hc : f c with
      | error e => exact absurd hc (hne c e)
      | ok b =>
          cases b
          · apply anyMatchM_of_exists f hne cs
            obtain ⟨x, hx, hfx⟩ := h
            rcases List.mem_cons.mp hx with hx0 | hx'
            · rw [hx0] at hfx
              rw [hc] at hfx
              cases hfx
            · exact ⟨x, hx', hfx⟩
          · rfl

/-- C7: the extended constraint matcher has exists-semantics over the
constraint sequence for both declared variants — it succeeds iff at least
one element satisfies the matcher; a candidate satisfies the key-value
variant iff it is an object containing the key whose value satisfies the
nested matcher when one is given (presence alone sufficing otherwise); and
the spec's concrete log/audit example matches. -/
theorem C7_extended_exists_semantics (rf : String → String → Bool) :
    (∀ (cs : List Value) (dm : DefaultObjectMatcherContext),
      matchExtendedConstraint rf cs (.defaultExtended dm) = .ok true ↔
        ∃ c ∈ cs, matchDefaultObject rf c dm = .ok true) ∧
    (∀ (cs : List Value) (key : String) (m? : Option NodeMatcherContext),
      matchExtendedConstraint rf cs (.keyValueMatcher key m?) = .ok true ↔
        ∃ c ∈ cs, keyValueElementPred rf key m? c = .ok true) ∧
    (∀ (key : String) (m? : Option NodeMatcherContext) (c : Value),
      keyValueElementPred rf key m? c = .ok true ↔
        ∃ members, c = .obj members ∧ ∃ v, lookupKey key members = some v ∧
          (m? = none ∨ ∃ m, m? = some m ∧ matchNode rf v m = .ok true)) ∧
    matchExtendedConstraint rf
      [.obj [("type", .text "log")], .obj [("type", .text "audit")]]
      (.keyValueMatcher "type" (some (.textMatcher (some (.plainString "audit"))))) = .ok true := by
  refine ⟨?_, ?_, ?_, rfl⟩
  · intro cs dm
    constructor
    · exact anyMatchM_ok_true_exists (fun c => matchDefaultObject rf c dm) cs
    · rintro ⟨c0, hc0, hsat⟩
      exact anyMatchM_of_exists (fun c => matchDefaultObject rf c dm)
        (fun c' e => matchDefaultObject_satisfiable_no_error rf dm c0 c' e hsat)
        cs ⟨c0, hc0, hsat⟩
  · intro cs key m?
    constructor
    · exact anyMatchM_ok_true_exists (keyValueElementPred rf key m?) cs
    · rintro ⟨c0, hc0, hsat⟩
      exact anyMatchM_of_exists (keyValueElementPred rf key m?)
        (fun c' e => keyValueElementPred_satisfiable_no_error rf key m? c0 c' e hsat)
        cs ⟨c0, hc0, hsat⟩
  · intro key m? c
    cases c with
    | obj members =>
        simp only [keyValueElementPred]
        cases hk : lookupKey key members with
        | none => simp [hk]
        | some v =>
            cases m? with
            | none => simp [hk]
            | some m => simp [hk]
    | undefined => simp [keyValueElementPred]
    | null => simp [keyValueElementPred]
    | bool b => simp [keyValueElementPred]
    | num q => simp [keyValueElementPred]
    | text s => simp [keyValueElementPred]
    | array elems => simp [keyValueElementPred]

/-- C9 counterexample: no call site of the string matcher inside the engine
can supply absent text — a successful is-null match is unreachable through
the node matcher, for every value and every regex oracle, refuting the
claim's existence part. -/
theorem C9_counterexample : ¬ engineCanSupplyAbsentText := by
  rintro ⟨rf, v, h⟩
  cases v <;> simp [matchNode, matchString, matchComplexString] at h

/-- C9 (amended): over the string matcher's own nullable-text domain,
is-null holds exactly for absent text, is-blank exactly for present
empty-or-all-whitespace text, is-empty exactly for present zero-length text,
is-null-or-empty exactly for absent or zero-length text, is-null-or-blank
exactly for absent or blank text; but every call site in the engine supplies
present text taken from a `TextValue`, so an is-null matcher reached through
the node matcher always yields false. -/
theorem C9_null_blank_empty (rf : String → String → Bool) :
    (∀ t : Option String, matchComplexString rf t .isNull = .ok true ↔ t = none) ∧
    (∀ t : Option String, matchComplexString rf t .isBlank = .ok true ↔
        ∃ s, t = some s ∧ ∀ c ∈ s.data, isJavaWhitespace c = true) ∧
    (∀ t : Option String, matchComplexString rf t .isEmpty = .ok true ↔
        ∃ s, t = some s ∧ s = "") ∧
    (∀ t : Option String, matchComplexString rf t .isNullOrEmpty = .ok true ↔
        t = none ∨ ∃ s, t = some s ∧ s = "") ∧
    (∀ t : Option String, matchComplexString rf t .isNullOrBlank = .ok true ↔
        t = none ∨ ∃ s, t = some s ∧ ∀ c ∈ s.data, isJavaWhitespace c = true) ∧
    (∀ v, matchNode rf v (.textMatcher (some (.complexMatcher .isNull))) = .ok false) := by
  refine ⟨?_, ?_, ?_, ?_, ?_, ?_⟩
  · intro t
    cases t <;> simp [matchComplexString]
  · intro t
    cases t <;> simp [matchComplexString, isBlankStr, List.all_eq_true]
  · intro t
    cases t <;> simp [matchComplexString, String.isEmpty_iff]
  · intro t
    cases t <;> simp [matchComplexString, String.isEmpty_iff]
  · intro t
    cases t <;> simp [matchComplexString, isBlankStr, List.all_eq_true]
  · intro v
    cases v <;> rfl

theorem predAnd_ok_true (p q : DecisionPred) (d : Option Decision) :
    predAnd p q d = .ok true ↔ p d = .ok true ∧ q d = .ok true := by
  simp only [predAnd]
  cases hp : p d with
  | error e => simp
  | ok b => cases b <;> simp

theorem buildCombinedLoop_none (rf : String → String → Bool) :
    ∀ (ms : List AuthorizationDecisionMatcherContext) (acc P : DecisionPred),
      buildCombinedLoop rf acc ms = .ok P → acc none = .ok false → P none = .ok false
  | [], acc, P, h, hacc => by
      simp only [buildCombinedLoop, Except.ok.injEq] at h
      exact h ▸ hacc
  | m :: rest, acc, P, h, hacc => by
      simp only [buildCombinedLoop] at h
      cases hb : buildSingleMatcherPredicate rf m with
      | error e => rw [hb] at h; exact absurd h (by simp)
      | ok p =>
          rw [hb] at h
          exact buildCombinedLoop_none rf rest (predAnd acc p) P h (by simp [predAnd, hacc])

theorem buildCombinedLoop_apply (rf : String → String → Bool) :
    ∀ (ms : List AuthorizationDecisionMatcherContext) (acc P : DecisionPred)
      (d : Option Decision),
      buildCombinedLoop rf acc ms = .ok P →
      (P d = .ok true ↔ acc d = .ok true ∧ ∀ m ∈ ms, applySingle rf m d = .ok true)
  | [], acc, P, d, h => by
      simp only [buildCombinedLoop, Except.ok.injEq] at h
      subst h
      simp
  | m :: rest, acc, P, d, h => by
      simp only [buildCombinedLoop] at h
      cases hb : buildSingleMatcherPredicate rf m with
      | error e => rw [hb] at h; exact absurd h (by simp)
      | ok p =>
          rw [hb] at h
          have ih := buildCombinedLoop_apply rf rest (predAnd acc p) P d h
          have hps : applySingle rf m d = p d := by simp [applySingle, hb]
          rw [ih, predAnd_ok_true]
          simp only [List.mem_cons, forall_eq_or_imp, hps]
          tauto

theorem buildCombinedLoop_error (rf : String → String → Bool) :
    ∀ (ms : List AuthorizationDecisionMatcherContext) (acc : DecisionPred) (e : MatchError),
      buildCombinedLoop rf acc ms = .error e →
      ∃ m ∈ ms, buildSingleMatcherPredicate rf m = .error e
  | [], _, _, h => by simp [buildCombinedLoop] at h
  | m :: rest, acc, e, h => by
      simp only [buildCombinedLoop] at h
      cases hb : buildSingleMatcherPredicate rf m with
      | error e2 =>
          rw [hb] at h
          simp only [Except.error.injEq] at h
          exact ⟨m, List.mem_cons_self m rest, h ▸ hb⟩
      | ok p =>
          rw [hb] at h
          obtain ⟨m2, hm2, he⟩ := buildCombinedLoop_error rf rest (predAnd acc p) e h
          exact ⟨m2, List.mem_cons_of_mem m hm2, he⟩

/-- C1: the built predicate is the logical conjunction of the per-clause
predicates evaluated on the same single decision — it accepts a present
decision iff every clause's own predicate accepts that decision — and a
built predicate always rejects the absent (null) decision; in particular the
regression pair Is(permit), HasResource(no matcher) rejects a permit
decision whose resource is Undefined. -/
theorem C1_conjunctive_predicate_builder (rf : String → String → Bool) :
    (∀ ms : List AuthorizationDecisionMatcherContext,
      (buildCombinedMatcherPredicate rf ms).isOk = true →
      applyCombined rf ms none = .ok false) ∧
    (∀ (ms : List AuthorizationDecisionMatcherContext) (d : Decision),
      applyCombined rf ms (some d) = .ok true ↔
        ∀ m ∈ ms, applySingle rf m (some d) = .ok true) ∧
    applyCombined rf [.isDecision .permit, .hasResource none]
      (some ⟨.permit, none, none, some .undefined⟩) = .ok false := by
  refine ⟨?_, ?_, rfl⟩
  · intro ms hok
    cases h : buildCombinedMatcherPredicate rf ms with
    | error e => rw [h] at hok; simp [Except.isOk, Except.toBool] at hok
    | ok P =>
        simp only [applyCombined, h]
        exact buildCombinedLoop_none rf ms nonNullPred P h rfl
  · intro ms d
    cases h : buildCombinedMatcherPredicate rf ms with
    | error e =>
        simp only [applyCombined, h]
        obtain ⟨m, hm, he⟩ := buildCombinedLoop_error rf ms nonNullPred e h
        constructor
        · intro hfalse
          exact absurd hfalse (by simp)
        · intro hall
          have hx := hall m hm
          simp [applySingle, he] at hx
    | ok P =>
        simp only [applyCombined, h]
        rw [buildCombinedLoop_apply rf ms nonNullPred P (some d) h]
        simp [nonNullPred]

/-- C1 witness: the combined predicate built from the regression clauses,
applied to the absent decision, yields false via the theorem. -/
theorem C1_conjunctive_predicate_builder_witness :
    applyCombined rfFalse [.isDecision .permit, .hasResource none] none = .ok false :=
  (C1_conjunctive_predicate_builder rfFalse).1 [.isDecision .permit, .hasResource none] rfl

theorem indexOfAux_sound (pat : List Char) :
    ∀ (t : List Char) (i j : Nat), indexOfAux pat t i = some j →
      i ≤ j ∧ j ≤ i + t.length ∧ listStartsWith (t.drop (j - i)) pat = true
  | [], i, j, h => by
      simp only [indexOfAux] at h
      by_cases hp : pat.isEmpty = true
      · rw [if_pos hp] at h
        simp only [Option.some.injEq] at h
        subst h
        refine ⟨Nat.le_refl i, by simp, ?_⟩
        cases pat with
        | nil => simp [listStartsWith]
        | cons p ps => simp [List.isEmpty] at hp
      · rw [if_neg hp] at h
        exact absurd h (by simp)
  | c :: rest, i, j, h => by
      simp only [indexOfAux] at h
      by_cases hs : listStartsWith (c :: rest) pat = true
      · rw [if_pos hs] at h
        simp only [Option.some.injEq] at h
        subst h
        exact ⟨Nat.le_refl _, by simp, by simpa [Nat.sub_self] using hs⟩
      · rw [if_neg hs] at h
        obtain ⟨h1, h2, h3⟩ := indexOfAux_sound pat rest (i + 1) j h
        refine ⟨by omega, by simp only [List.length_cons]; omega, ?_⟩
        have hji : j - i = (j - (i + 1)) + 1 := by omega
        rw [hji]
        exact h3

theorem indexOfAux_min (pat : List Char) :
    ∀ (t : List Char) (i d : Nat), listStartsWith (t.drop d) pat = true →
      ∃ j, indexOfAux pat t i = some j ∧ j ≤ i + d
  | [], i, d, h => by
      rw [List.drop_nil] at h
      refine ⟨i, ?_, by omega⟩
      cases pat with
      | nil => simp [indexOfAux]
      | cons p ps => simp [listStartsWith] at h
  | c :: rest, i, d, h => by
      by_cases hs : listStartsWith (c :: rest) pat = true
      · exact ⟨i, by simp [indexOfAux, hs], by omega⟩
      · cases d with
        | zero => rw [List.drop_zero] at h; exact absurd h hs
        | succ d' =>
            have h' : listStartsWith (rest.drop d') pat = true := h
            obtain ⟨j, hj, hle⟩ := indexOfAux_min pat rest (i + 1) d' h'
            exact ⟨j, by simp [indexOfAux, hs, hj], by omega⟩

theorem occursAt_fit (t pat : List Char) (i : Nat) (h : occursAt t pat i)
    (hi : i ≤ t.length) : i + pat.length ≤ t.length := by
  have := listStartsWith_length (t.drop i) pat h
  rw [List.length_drop] at this
  omega

theorem occursAt_clamp (t pat : List Char) (i : Nat) (h : occursAt t pat i) :
    occursAt t pat (min i t.length) := by
  by_cases hi : i ≤ t.length
  · rwa [Nat.min_eq_left hi]
  · rw [Nat.min_eq_right (by omega)]
    unfold occursAt at *
    rw [List.drop_eq_nil_of_le (by omega)] at h
    rwa [List.drop_eq_nil_of_le (Nat.le_refl _)]

theorem inOrderFrom_mono (t : List Char) :
    ∀ (subs : List String) (c1 c2 : Nat), c1 ≤ c2 →
      InOrderFrom t c2 subs → InOrderFrom t c1 subs
  | [], _, _, _, _ => trivial
  | _ :: _, _, _, hle, ⟨i, hci, hocc, hrest⟩ => ⟨i, Nat.le_trans hle hci, hocc, hrest⟩

theorem containsInOrderLoop_iff (t : List Char) :
    ∀ (subs : List String) (cursor : Nat), cursor ≤ t.length →
      (containsInOrderLoop t cursor subs = true ↔ InOrderFrom t cursor subs)
  | [], cursor, _ => by simp [containsInOrderLoop, InOrderFrom]
  | s :: rest, cursor, hc => by
      have hmin : min cursor t.length = cursor := Nat.min_eq_left hc
      simp only [containsInOrderLoop]
      cases hidx : indexOfFrom t s.data cursor with
      | none =>
          simp only [InOrderFrom]
          constructor
          · intro hfalse
            cases hfalse
          · rintro ⟨i, hci, hocc, _⟩
            have hocc' := occursAt_clamp t s.data i hocc
            have hdrop : t.drop (min i t.length) =
                (t.drop cursor).drop (min i t.length - cursor) := by
              rw [List.drop_drop]
              congr 1
              have : cursor ≤ min i t.length := Nat.le_min.mpr ⟨hci, hc⟩
              omega
            obtain ⟨j, hj, _⟩ := indexOfAux_min s.data (t.drop cursor) cursor
              (min i t.length - cursor) (by rw [← hdrop]; exact hocc')
            rw [indexOfFrom, hmin] at hidx
            rw [hidx] at hj
            cases hj
      | some idx =>
          have hsound := indexOfAux_sound s.data (t.drop cursor) cursor idx
            (by rw [indexOfFrom, hmin] at hidx; exact hidx)
          obtain ⟨h1, h2, h3⟩ := hsound
          have hoccIdx : occursAt t s.data idx := by
            unfold occursAt
            have hdd : (t.drop cursor).drop (idx - cursor) = t.drop idx := by
              rw [List.drop_drop]
              congr 1
              omega
            rwa [hdd] at h3
          have hidxLen : idx ≤ t.length := by
            rw [List.length_drop] at h2
            omega
          have hfit : idx + s.data.length ≤ t.length :=
            occursAt_fit t s.data idx hoccIdx hidxLen
          have ih := containsInOrderLoop_iff t rest (idx + s.data.length) hfit
          rw [ih]
          simp only [InOrderFrom]
          constructor
          · intro hrest
            exact ⟨idx, h1, hoccIdx, hrest⟩
          · rintro ⟨i, hci, hocc, hrest⟩
            have hocc' := occursAt_clamp t s.data i hocc
            have hcii' : cursor ≤ min i t.length := Nat.le_min.mpr ⟨hci, hc⟩
            have hdrop : t.drop (min i t.length) =
                (t.drop cursor).drop (min i t.length - cursor) := by
              rw [List.drop_drop]
              congr 1
              omega
            obtain ⟨j, hj, hjle⟩ := indexOfAux_min s.data (t.drop cursor) cursor
              (min i t.length - cursor) (by rw [← hdrop]; exact hocc')
            rw [indexOfFrom, hmin] at hidx
            rw [hidx] at hj
            have hji : idx = j := by
              cases hj
              rfl
            have hile : idx + s.data.length ≤ i + s.data.length := by
              have hmi : min i t.length ≤ i := Nat.min_le_left i t.length
              omega
            exact inOrderFrom_mono t rest (idx + s.data.length) (i + s.data.length) hile hrest

/-- C5: contains-substrings-in-order succeeds exactly when the substrings
occur in order at non-decreasing positions, each subsequent search starting
strictly past the previously matched segment; in particular "abcXdefXghi"
contains ["abc","ghi"] in order but not ["ghi","abc"]. -/
theorem C5_contains_substrings_in_order (rf : String → String → Bool) :
    (∀ (t : String) (subs : List String),
      matchComplexString rf (some t) (.containsInOrder subs) = .ok true ↔
        InOrderFrom t.data 0 subs) ∧
    matchComplexString rf (some "abcXdefXghi") (.containsInOrder ["abc", "ghi"]) = .ok true ∧
    matchComplexString rf (some "abcXdefXghi") (.containsInOrder ["ghi", "abc"]) = .ok false := by
  refine ⟨fun t subs => ?_, rfl, rfl⟩
  have h := containsInOrderLoop_iff t.data subs 0 (Nat.zero_le _)
  simp [matchComplexString, h]
